import Mathlib

set_option autoImplicit false

namespace FlowState

mutual
/-- JavaScript runtime values, shallowly embedded. Composite values (objects,
arrays, functions, class instances) carry an allocation id `id : Nat`; under the
discipline that every allocation receives a fresh id, equality of `Val` terms
coincides with JavaScript reference equality (`===`) for composites and with
value equality for primitives. A plain object literal (whose `constructor` is
`Object`) is the `obj` constructor; arrays, functions and other class instances
are separate constructors, matching the `obj?.constructor === Object` test in
`src/index.ts`. Function bodies are represented by a `code : Nat` index into an
environment (see `Env`). -/
inductive Val where
  | undef
  | nullV
  | prim (n : Int)
  | str (s : String)
  | obj (id : Nat) (fields : Fields)
  | arr (id : Nat)
  | func (id : Nat) (code : Nat)
  | other (id : Nat)
  deriving DecidableEq

/-- Ordered field list of a plain JavaScript object. -/
inductive Fields where
  | nil
  | cons (key : String) (value : Val) (rest : Fields)
  deriving DecidableEq
end

/-- Result of invoking a caller-supplied JavaScript function: either a returned
value or a thrown exception (identified by a numeric tag). -/
inductive ExecRes where
  | ok (v : Val)
  | thrown (e : Nat)
  deriving DecidableEq

/-- Environment giving the behaviour of function values: `env code arg` is what
the function with body index `code` does when invoked with `arg`. -/
def Env : Type := Nat → Val → ExecRes

/-- Embedding of `isObject` from `src/index.ts`:
`(obj) => obj?.constructor === Object`. It is true exactly for plain object
literals: `null`/`undefined` short-circuit to `undefined`, arrays have
constructor `Array`, functions `Function`, primitives their wrapper class, and
class instances their own class. -/
def isObject : Val → Bool
  | .obj _ _ => true
  | _ => false

/-- Embedding of `isFunction` from `src/index.ts`: `typeof v === 'function'`. -/
def isFunction : Val → Bool
  | .func _ _ => true
  | _ => false

/-- JavaScript property lookup on an object's field list (first match). -/
def getField : Fields → String → Option Val
  | .nil, _ => none
  | .cons k' v' rest, k => if k' = k then some v' else getField rest k

/-- Keys of a field list, in order. -/
def keys : Fields → List String
  | .nil => []
  | .cons k _ rest => k :: keys rest

/-- JavaScript property assignment semantics used by object spread: overwrite
the first occurrence of the key in place, or append the key at the end. -/
def setField : Fields → String → Val → Fields
  | .nil, k, v => .cons k v .nil
  | .cons k' v' rest, k, v =>
      if k' = k then .cons k v rest else .cons k' v' (setField rest k v)

/-- Field list of the spread `\x7b ...base, ...overlay \x7d`: all fields of
`base`, overwritten key by key with `overlay`'s fields (one level deep,
insertion order preserved). -/
def mergeFields (base : Fields) : Fields → Fields
  | .nil => base
  | .cons k v rest => mergeFields (setField base k v) rest

/-- The spread `\x7b ...prev, ...result \x7d` evaluated when both sides are
plain objects: a freshly allocated object (id `fresh`) holding the shallow
merge of the two field lists. On other shapes it is not used by `update`; we
return `result` to keep the function total. -/
def mergeVal (fresh : Nat) (prev result : Val) : Val :=
  match prev, result with
  | .obj _ pf, .obj _ rf => .obj fresh (mergeFields pf rf)
  | _, _ => result

/-- The closed-over state of one `createFlowStore` instance: the live value
`state`, the construction value `init` (returned by `getInit`), and the
listener registry, a `Set` of listener identities in insertion order, distinct. -/
structure Store where
  state : Val
  init : Val
  listeners : List Nat
  deriving DecidableEq

/-- Observable outcome of one `update` call: the store afterwards, the listener
invocations performed by `notify` (listener identity paired with the value it
received, in iteration order), the invocations of the caller-supplied updater
(its code index paired with the argument), and the exception propagated to the
caller, if any. -/
structure UpdateOut where
  store : Store
  calls : List (Nat × Val)
  fnCalls : List (Nat × Val)
  exc : Option Nat
  deriving DecidableEq

/-- Embedding of `update` continued after `result` has been computed: build
`next` (shallow merge when `replace` is false and both `result` and the current
state are plain objects, `result` verbatim otherwise), then assign and notify
only when `next` is reference-different from the current state. `fresh` is the
allocation id handed to the spread when it runs; `fc` records the updater
invocation already performed. -/
def nextVal (st : Store) (result : Val) (replace : Bool) (fresh : Nat) : Val :=
  if !replace && isObject result && isObject st.state then
    mergeVal fresh st.state result
  else result

/-- The reference-difference check and the assignment/notification of `update`:
`if (next !== state) \x7b setState(next); notify(next); \x7d`. -/
def updateCore (st : Store) (result : Val) (replace : Bool) (fresh : Nat)
    (fc : List (Nat × Val)) : UpdateOut :=
  if nextVal st result replace fresh = st.state then ⟨st, [], fc, none⟩
  else ⟨⟨nextVal st result replace fresh, st.init, st.listeners⟩,
    st.listeners.map (fun l => (l, nextVal st result replace fresh)), fc, none⟩

/-- Embedding of `update(partial, replace = false)` from `src/index.ts`:
`result = isFunction(partial) ? partial(prev) : partial`; a thrown exception
propagates with the store untouched and no listener invoked; otherwise
`updateCore` finishes the call. -/
def update (env : Env) (fresh : Nat) (st : Store) (updArg : Val)
    (replace : Bool) : UpdateOut :=
  match updArg with
  | .func _ code =>
      match env code st.state with
      | .thrown e => ⟨st, [], [(code, st.state)], some e⟩
      | .ok result => updateCore st result replace fresh [(code, st.state)]
  | _ => updateCore st updArg replace fresh []

/-- Step 1 of `update` in isolation:
`result = isFunction(partial) ? partial(prev) : partial`, as a value. Used to
state properties of `update` uniformly in the resolved `result`. -/
def resolveArg (env : Env) (prev updArg : Val) : ExecRes :=
  match updArg with
  | .func _ code => env code prev
  | _ => .ok updArg

/-- Embedding of `notify(s = getState())`: read-only broadcast; returns the
(unchanged) store and the listener invocations `(listener, value)` in
registration order. `none` models calling `notify()` with no argument. -/
def notify (st : Store) (v : Option Val) : Store × List (Nat × Val) :=
  (st, st.listeners.map (fun l => (l, v.getD st.state)))

/-- Embedding of `resetState()`: literally `update(getInit(), true)`. -/
def resetState (env : Env) (fresh : Nat) (st : Store) : UpdateOut :=
  update env fresh st st.init true

/-- Embedding of `subscribe(listener)`: `listeners.add(listener)` — a `Set`
add appends the identity unless it is already present. (The returned closure
`() => unsubscribe(listener)` is modelled by calling `unsubscribe` directly.) -/
def subscribe (st : Store) (l : Nat) : Store :=
  { st with listeners := if l ∈ st.listeners then st.listeners else st.listeners ++ [l] }

/-- Embedding of `unsubscribe(listener)`: `listeners.delete(listener)`. -/
def unsubscribe (st : Store) (l : Nat) : Store :=
  { st with listeners := st.listeners.filter (fun x => x ≠ l) }

/-- Embedding of `unsubscribeAll()`: `listeners.forEach(unsubscribe)` — the
registry is iterated and each visited identity deleted; deleting the entry the
cursor is on does not disturb `Set` iteration, so every original entry is
visited and deleted. -/
def unsubscribeAll (st : Store) : Store :=
  { st with
    listeners := st.listeners.foldl (fun acc l => acc.filter (fun x => x ≠ l)) st.listeners }

/-! A finer-grained model of the `notify` loop `listeners.forEach((l) => l(s))`
for listeners that themselves mutate the registry while the cycle runs. A
JavaScript `Set` iterates in insertion order; an entry deleted before the
cursor reaches it is not visited, an entry added during iteration is appended
and will be visited, and adding an already-present entry is a no-op. -/

/-- A registry mutation a listener may perform from inside a notify cycle:
`remove i` is `unsubscribe`/an unsubscribe closure for listener `i`,
`removeAll` is `unsubscribeAll()`, `add i` is `subscribe` of listener `i`. -/
inductive RegOp where
  | remove (i : Nat)
  | removeAll
  | add (i : Nat)
  deriving DecidableEq

/-- Effect of one registry mutation on the iterating `Set`, split at the
cursor: `front` holds the entries already visited and still present, `pending`
the entries the cursor has not reached. -/
def applyOp : List Nat × List Nat → RegOp → List Nat × List Nat
  | (f, p), .remove i => (f.filter (fun x => x ≠ i), p.filter (fun x => x ≠ i))
  | _, .removeAll => ([], [])
  | (f, p), .add i => if i ∈ f ∨ i ∈ p then (f, p) else (f, p ++ [i])

/-- One notify cycle over a mutating registry: invoke the head pending
listener, apply the registry mutations its body performs (`eff` gives each
listener's mutations), continue with the updated pending list. Returns the
listeners invoked, in order. `fuel` bounds the number of invocations; the
cycle itself terminates unless listeners keep re-adding each other forever. -/
def notifyRun : Nat → (Nat → List RegOp) → List Nat → List Nat → List Nat
  | 0, _, _, _ => []
  | _ + 1, _, _, [] => []
  | fuel + 1, eff, front, i :: rest =>
      let s := (eff i).foldl applyOp (front ++ [i], rest)
      i :: notifyRun fuel eff s.1 s.2

/-- The identity updater `(v) => v`, installed at every code index. -/
def envId : Env := fun _ v => .ok v

example :
    update envId 5 ⟨.obj 0 (.cons "a" (.prim 1) .nil), .prim 0, [7]⟩ (.func 1 100) false =
      ⟨⟨.obj 5 (.cons "a" (.prim 1) .nil), .prim 0, [7]⟩,
        [(7, .obj 5 (.cons "a" (.prim 1) .nil))], [(100, .obj 0 (.cons "a" (.prim 1) .nil))],
        none⟩ := by
  rfl

example :
    update envId 5 ⟨.prim 3, .prim 0, [7]⟩ (.func 1 100) false =
      ⟨⟨.prim 3, .prim 0, [7]⟩, [], [(100, .prim 3)], none⟩ := by
  rfl

example :
    notifyRun 4 (fun i => if i = 1 then [.remove 2] else []) [] [1, 2, 3] = [1, 3] := by
  rfl

example :
    notifyRun 9 (fun i => if i = 1 then [.add 7] else []) [] [1, 2] = [1, 2, 7] := by
  rfl

example :
    notifyRun 9 (fun i => if i = 1 then [.removeAll] else []) [] [1, 2, 3] = [1] := by
  rfl

/-! Lemmas about field lists and the shallow merge. -/

theorem getField_setField : ∀ (pf : Fields) (k k' : String) (v : Val),
    getField (setField pf k v) k' = if k = k' then some v else getField pf k'
  | .nil, k, k', v => by
      by_cases h : k = k' <;> simp [setField, getField, h]
  | .cons k₀ v₀ rest, k, k', v => by
      by_cases h₀ : k₀ = k
      · subst h₀
        by_cases h : k₀ = k' <;> simp [setField, getField, h]
      · simp only [setField, if_neg h₀]
        by_cases h : k₀ = k'
        · subst h
          simp [getField, show k ≠ k₀ from fun hh => h₀ hh.symm]
        · simp [getField, h, getField_setField rest k k' v]

theorem getField_mergeFields_not_mem : ∀ (qf pf : Fields) (k : String),
    k ∉ keys qf → getField (mergeFields pf qf) k = getField pf k
  | .nil, _, _, _ => rfl
  | .cons k₀ v₀ rest, pf, k, h => by
      simp only [keys, List.mem_cons, not_or] at h
      rw [mergeFields, getField_mergeFields_not_mem rest _ _ h.2, getField_setField]
      simp [Ne.symm h.1]

theorem getField_mergeFields_mem : ∀ (qf pf : Fields) (k : String),
    (keys qf).Nodup → k ∈ keys qf → getField (mergeFields pf qf) k = getField qf k
  | .nil, _, k, _, h => by simp [keys] at h
  | .cons k₀ v₀ rest, pf, k, hnd, h => by
      simp only [keys, List.nodup_cons] at hnd
      by_cases hk : k₀ = k
      · subst hk
        rw [mergeFields, getField_mergeFields_not_mem rest _ _ hnd.1,
          getField_setField]
        simp [getField]
      · simp only [keys, List.mem_cons] at h
        rcases h with h | h
        · exact absurd h.symm hk
        · rw [mergeFields, getField_mergeFields_mem rest _ _ hnd.2 h, getField]
          simp [hk]

/-! Lemmas about `update` and the listener registry. -/

theorem updateCore_state (st : Store) (res : Val) (r : Bool) (fresh : Nat)
    (fc : List (Nat × Val)) :
    (updateCore st res r fresh fc).store.state = nextVal st res r fresh := by
  unfold updateCore
  split
  · next h => exact h.symm
  · rfl

theorem updateCore_fc (st : Store) (res : Val) (r : Bool) (fresh : Nat)
    (fc : List (Nat × Val)) : (updateCore st res r fresh fc).fnCalls = fc := by
  unfold updateCore
  split <;> rfl

theorem nextVal_replace (st : Store) (res : Val) (fresh : Nat) :
    nextVal st res true fresh = res := by
  simp [nextVal]

theorem updateCore_replace (st : Store) (res : Val) (fresh : Nat)
    (fc : List (Nat × Val)) :
    updateCore st res true fresh fc =
      if res = st.state then ⟨st, [], fc, none⟩
      else ⟨⟨res, st.init, st.listeners⟩, st.listeners.map (fun l => (l, res)), fc, none⟩ := by
  unfold updateCore
  rw [nextVal_replace]

theorem update_nonfunc (env : Env) (fresh : Nat) (st : Store) (updArg : Val)
    (r : Bool) (h : isFunction updArg = false) :
    update env fresh st updArg r = updateCore st updArg r fresh [] := by
  cases updArg <;> first | rfl | simp [isFunction] at h

theorem update_func (env : Env) (fresh : Nat) (st : Store) (i code : Nat)
    (r : Bool) (v : Val) (h : env code st.state = .ok v) :
    update env fresh st (.func i code) r = updateCore st v r fresh [(code, st.state)] := by
  simp only [update]
  rw [h]

theorem update_func_thrown (env : Env) (fresh : Nat) (st : Store) (i code : Nat)
    (r : Bool) (e : Nat) (h : env code st.state = .thrown e) :
    update env fresh st (.func i code) r = ⟨st, [], [(code, st.state)], some e⟩ := by
  simp only [update]
  rw [h]

theorem update_state_resolved (env : Env) (fresh : Nat) (st : Store)
    (updArg : Val) (r : Bool) (v : Val)
    (hres : resolveArg env st.state updArg = .ok v) :
    (update env fresh st updArg r).store.state = nextVal st v r fresh := by
  cases updArg <;> simp only [resolveArg] at hres
  case func i code =>
    rw [update_func env fresh st i code r v hres, updateCore_state]
  all_goals
    injection hres with hv
    subst hv
    rw [update_nonfunc env fresh st _ r (by simp [isFunction]), updateCore_state]

theorem updateCore_calls_mem (st : Store) (res : Val) (r : Bool) (fresh : Nat)
    (fc : List (Nat × Val)) :
    ∀ q ∈ (updateCore st res r fresh fc).calls, q.1 ∈ st.listeners := by
  intro q hq
  unfold updateCore at hq
  split at hq
  · simp at hq
  · simp only [List.mem_map] at hq
    obtain ⟨l, hl, hql⟩ := hq
    rw [← hql]
    exact hl

theorem update_calls_mem (env : Env) (fresh : Nat) (st : Store) (updArg : Val)
    (r : Bool) : ∀ q ∈ (update env fresh st updArg r).calls, q.1 ∈ st.listeners := by
  intro q hq
  by_cases hf : isFunction updArg = false
  · rw [update_nonfunc env fresh st updArg r hf] at hq
    exact updateCore_calls_mem _ _ _ _ _ q hq
  · obtain ⟨i, code, rfl⟩ : ∃ i code, updArg = .func i code := by
      cases updArg <;> simp [isFunction] at hf ; exact ⟨_, _, rfl⟩
    cases henv : env code st.state with
    | thrown e =>
        rw [update_func_thrown env fresh st i code r e henv] at hq
        simp at hq
    | ok v =>
        rw [update_func env fresh st i code r v henv] at hq
        exact updateCore_calls_mem _ _ _ _ _ q hq

theorem mem_foldl_filter : ∀ (reg acc : List Nat) (x : Nat),
    x ∈ reg.foldl (fun a l => a.filter (fun y => y ≠ l)) acc → x ∈ acc ∧ x ∉ reg
  | [], _, _, h => ⟨h, by simp⟩
  | l :: rest, acc, x, h => by
      have ih := mem_foldl_filter rest (acc.filter (fun y => y ≠ l)) x h
      have hf := List.mem_filter.mp ih.1
      refine ⟨hf.1, ?_⟩
      simp only [List.mem_cons, not_or]
      exact ⟨by simpa using hf.2, ih.2⟩

/-! Lemmas about the mutating notify cycle (`notifyRun`). -/

theorem applyOp_pending_not_mem (s : List Nat × List Nat) (op : RegOp) (b : Nat)
    (hb : b ∉ s.2) (hop : op ≠ .add b) : b ∉ (applyOp s op).2 := by
  obtain ⟨f, p⟩ := s
  cases op with
  | remove i =>
      simp only [applyOp, List.mem_filter]
      intro h
      exact hb h.1
  | removeAll => simp [applyOp]
  | add i =>
      have hib : i ≠ b := fun h => hop (h ▸ rfl)
      simp only [applyOp]
      split
      · exact hb
      · simp only [List.mem_append, List.mem_singleton]
        rintro (h | h)
        · exact hb h
        · exact hib h.symm

theorem applyOps_pending_not_mem : ∀ (ops : List RegOp) (s : List Nat × List Nat)
    (b : Nat), b ∉ s.2 → RegOp.add b ∉ ops → b ∉ (ops.foldl applyOp s).2
  | [], _, _, hb, _ => hb
  | op :: rest, s, b, hb, hadd => by
      simp only [List.mem_cons, not_or] at hadd
      exact applyOps_pending_not_mem rest (applyOp s op) b
        (applyOp_pending_not_mem s op b hb (fun h => hadd.1 h.symm)) hadd.2

theorem applyOp_remove_self (s : List Nat × List Nat) (b : Nat) :
    b ∉ (applyOp s (.remove b)).2 := by
  obtain ⟨f, p⟩ := s
  simp [applyOp]

theorem applyOps_pending_removed : ∀ (ops : List RegOp) (s : List Nat × List Nat)
    (b : Nat), (RegOp.remove b ∈ ops ∨ RegOp.removeAll ∈ ops) → RegOp.add b ∉ ops →
    b ∉ (ops.foldl applyOp s).2
  | [], _, _, htrig, _ => by simp at htrig
  | op :: rest, s, b, htrig, hadd => by
      simp only [List.mem_cons, not_or] at hadd
      by_cases hop : op = .remove b ∨ op = .removeAll
      · have hb : b ∉ (applyOp s op).2 := by
          rcases hop with rfl | rfl
          · exact applyOp_remove_self s b
          · simp [applyOp]
        exact applyOps_pending_not_mem rest (applyOp s op) b hb hadd.2
      · push_neg at hop
        have htrig' : RegOp.remove b ∈ rest ∨ RegOp.removeAll ∈ rest := by
          rcases htrig with h | h <;> simp only [List.mem_cons] at h
          · rcases h with h | h
            · exact absurd h.symm hop.1
            · exact Or.inl h
          · rcases h with h | h
            · exact absurd h.symm hop.2
            · exact Or.inr h
        exact applyOps_pending_removed rest (applyOp s op) b htrig' hadd.2

theorem notifyRun_not_mem : ∀ (fuel : Nat) (eff : Nat → List RegOp)
    (front pending : List Nat) (b : Nat), b ∉ pending →
    (∀ i, RegOp.add b ∉ eff i) → b ∉ notifyRun fuel eff front pending
  | 0, _, _, _, _, _, _ => by simp [notifyRun]
  | fuel + 1, eff, front, [], b, _, _ => by simp [notifyRun]
  | fuel + 1, eff, front, i :: rest, b, hb, hadd => by
      simp only [List.mem_cons, not_or] at hb
      simp only [notifyRun, List.mem_cons, not_or]
      refine ⟨hb.1, ?_⟩
      exact notifyRun_not_mem fuel eff _ _ b
        (applyOps_pending_not_mem (eff i) (front ++ [i], rest) b hb.2 (hadd i)) hadd

theorem notifyRun_no_ops : ∀ (fuel : Nat) (front pending : List Nat),
    pending.length ≤ fuel → notifyRun fuel (fun _ => []) front pending = pending
  | 0, _, [], _ => by simp [notifyRun]
  | 0, _, _ :: _, h => by simp at h
  | fuel + 1, front, [], _ => by simp [notifyRun]
  | fuel + 1, front, i :: rest, h => by
      simp only [List.length_cons, Nat.add_le_add_iff_right] at h
      simp only [notifyRun, List.foldl_nil]
      rw [notifyRun_no_ops fuel (front ++ [i]) rest h]

/-! The claims. -/

/-- C1, counterexample: the claimed no-op suppression fails when the current
state is a plain object and `replace` is false. With current state the plain
object `\x7ba: 1\x7d` (allocation id 0) and an updater that returns its
argument unchanged, the spread `\x7b ...prev, ...result \x7d` still allocates a
fresh object (id 5), which is reference-different from the current state, so
the listener (id 7) is invoked and `getState()` afterwards returns a new
reference. -/
theorem c1_noop_suppression_counterexample :
    (update envId 5 ⟨.obj 0 (.cons "a" (.prim 1) .nil), .prim 0, [7]⟩
        (.func 1 100) false).calls ≠ [] ∧
      (update envId 5 ⟨.obj 0 (.cons "a" (.prim 1) .nil), .prim 0, [7]⟩
          (.func 1 100) false).store.state ≠
        (⟨.obj 0 (.cons "a" (.prim 1) .nil), .prim 0, [7]⟩ : Store).state := by
  decide

/-- C1, amended: no-op suppression by returning the received reference holds
whenever the shallow-merge path is not taken — i.e. when `replace` is true or
the current state is not a plain object. Then `next` is the returned reference
itself, the `next !== state` check fails, no listener is invoked, and the store
(hence `getState()`) is unchanged. -/
theorem c1_noop_suppression_amended (env : Env) (fresh : Nat) (st : Store)
    (i code : Nat) (r : Bool) (hid : env code st.state = .ok st.state)
    (hcase : r = true ∨ isObject st.state = false) :
    update env fresh st (.func i code) r = ⟨st, [], [(code, st.state)], none⟩ := by
  rw [update_func env fresh st i code r st.state hid]
  have hnext : nextVal st st.state r fresh = st.state := by
    rcases hcase with rfl | h
    · exact nextVal_replace st st.state fresh
    · simp [nextVal, h]
  simp only [updateCore]
  rw [hnext]
  simp

/-- C1, amended, witness: a store holding the primitive `3` with listener 7;
the identity updater triggers no notification and leaves the state reference
unchanged. -/
theorem c1_noop_suppression_amended_witness :
    update envId 0 ⟨.prim 3, .prim 0, [7]⟩ (.func 1 100) false =
      ⟨⟨.prim 3, .prim 0, [7]⟩, [], [(100, .prim 3)], none⟩ :=
  c1_noop_suppression_amended envId 0 ⟨.prim 3, .prim 0, [7]⟩ 1 100 false rfl (Or.inr rfl)

/-- C2: `update(partialOrFn, replace)` computes `result` as the function
argument's return value on the current state (otherwise the argument itself,
captured by `resolveArg`); if `replace` is false and both `result` and the
current state are plain records, the new state is the freshly allocated
one-level shallow merge of the current state overwritten by `result`'s fields;
in every other case (`replace` true, or either value not a plain record) the
new state is `result` verbatim, retaining no field of the old state. -/
theorem c2_update_merge_semantics (env : Env) (fresh : Nat) (st : Store)
    (updArg : Val) (r : Bool) (v : Val)
    (hres : resolveArg env st.state updArg = .ok v) :
    (∀ a pf b vf, st.state = .obj a pf → v = .obj b vf → r = false →
        (update env fresh st updArg r).store.state =
          .obj fresh (mergeFields pf vf)) ∧
      ((r = true ∨ isObject v = false ∨ isObject st.state = false) →
        (update env fresh st updArg r).store.state = v) := by
  constructor
  · rintro a pf b vf hst hv rfl
    rw [update_state_resolved env fresh st updArg false v hres]
    subst hv
    simp [nextVal, isObject, hst, mergeVal]
  · intro hcase
    rw [update_state_resolved env fresh st updArg r v hres]
    rcases hcase with rfl | h | h
    · simp [nextVal]
    · simp [nextVal, h]
    · simp [nextVal, h]

/-- C2, witness: merging the plain record `\x7bb: 2\x7d` into the plain-record
state `\x7ba: 1\x7d` yields the freshly allocated shallow merge. -/
theorem c2_update_merge_semantics_witness :
    (update envId 5 ⟨.obj 0 (.cons "a" (.prim 1) .nil), .prim 0, []⟩
        (.obj 1 (.cons "b" (.prim 2) .nil)) false).store.state =
      .obj 5 (mergeFields (.cons "a" (.prim 1) .nil) (.cons "b" (.prim 2) .nil)) :=
  (c2_update_merge_semantics envId 5 ⟨.obj 0 (.cons "a" (.prim 1) .nil), .prim 0, []⟩
      (.obj 1 (.cons "b" (.prim 2) .nil)) false (.obj 1 (.cons "b" (.prim 2) .nil))
      rfl).1 0 _ 1 _ rfl rfl rfl

/-- C3: for an `update` with `replace = false` whose partial is a plain record
mentioning only some keys of a plain-record state, the new state is the fresh
shallow merge in which every unmentioned key keeps a value that is the very
same `Val` term (hence reference-identical, nested composites included) as
before, while mentioned keys take the partial's values. -/
theorem c3_referential_stability (env : Env) (fresh : Nat) (st : Store)
    (a : Nat) (pf : Fields) (j : Nat) (qf : Fields)
    (hst : st.state = .obj a pf) (hnd : (keys qf).Nodup) :
    (update env fresh st (.obj j qf) false).store.state =
        .obj fresh (mergeFields pf qf) ∧
      (∀ k, k ∉ keys qf → getField (mergeFields pf qf) k = getField pf k) ∧
      (∀ k, k ∈ keys qf → getField (mergeFields pf qf) k = getField qf k) := by
  refine ⟨?_, fun k hk => getField_mergeFields_not_mem qf pf k hk,
    fun k hk => getField_mergeFields_mem qf pf k hnd hk⟩
  rw [update_nonfunc env fresh st (.obj j qf) false rfl, updateCore_state]
  simp [nextVal, isObject, hst, mergeVal]

/-- C3, witness: updating `\x7bx: someArray, y: 1\x7d` with the partial
`\x7by: 2\x7d` keeps the untouched field `x` (an array, allocation id 3)
reference-identical. -/
theorem c3_referential_stability_witness :
    (update envId 9 ⟨.obj 0 (.cons "x" (.arr 3) (.cons "y" (.prim 1) .nil)), .prim 0, []⟩
        (.obj 1 (.cons "y" (.prim 2) .nil)) false).store.state =
      .obj 9 (mergeFields (.cons "x" (.arr 3) (.cons "y" (.prim 1) .nil))
        (.cons "y" (.prim 2) .nil)) ∧
    getField (mergeFields (.cons "x" (.arr 3) (.cons "y" (.prim 1) .nil))
        (.cons "y" (.prim 2) .nil)) "x" =
      getField (.cons "x" (.arr 3) (.cons "y" (.prim 1) .nil)) "x" :=
  ⟨(c3_referential_stability envId 9 _ 0 _ 1 _ rfl (by decide)).1,
    (c3_referential_stability envId 9
        ⟨.obj 0 (.cons "x" (.arr 3) (.cons "y" (.prim 1) .nil)), .prim 0, []⟩ 0 _ 1 _
        rfl (by decide)).2.1 "x" (by decide)⟩

/-- C4, counterexample: the round-trip fails for a store whose initial value is
a function. `resetState()` is `update(getInit(), true)` and `update` classifies
any function argument as an updater, so the initial function (id 1, body 100,
here returning the primitive `5`) is invoked rather than restored:
`getState()` afterwards is `5`, not the initial function. -/
theorem c4_reset_roundtrip_counterexample :
    (resetState (fun _ _ => .ok (.prim 5)) 9 ⟨.func 1 100, .func 1 100, []⟩).store.state ≠
      (⟨.func 1 100, .func 1 100, []⟩ : Store).init := by
  decide

/-- C4, amended: for every store whose initial value is not a function,
`resetState()` makes `getState()` return `getInit()` by reference, notifies
listeners exactly when the restored value differs by reference from the present
current value, and is literally `update(getInit(), replace = true)`. -/
theorem c4_reset_roundtrip_amended (env : Env) (fresh : Nat) (st : Store)
    (h : isFunction st.init = false) :
    (resetState env fresh st).store.state = st.init ∧
      (resetState env fresh st).calls =
        (if st.init = st.state then []
         else st.listeners.map (fun l => (l, st.init))) ∧
      resetState env fresh st = update env fresh st st.init true := by
  have heq : resetState env fresh st = updateCore st st.init true fresh [] := by
    rw [resetState, update_nonfunc env fresh st st.init true h]
  refine ⟨?_, ?_, rfl⟩
  · rw [heq, updateCore_state, nextVal_replace]
  · rw [heq, updateCore_replace]
    split <;> rfl

/-- C4, amended, witness: resetting a store whose state drifted from its
non-function initial value `0` restores the initial reference. -/
theorem c4_reset_roundtrip_amended_witness :
    (resetState envId 0 ⟨.prim 3, .prim 0, [7]⟩).store.state =
      (⟨.prim 3, .prim 0, [7]⟩ : Store).init :=
  (c4_reset_roundtrip_amended envId 0 ⟨.prim 3, .prim 0, [7]⟩ rfl).1

/-- C5: during one notify cycle over the mutating registry model, a listener
`b` that an earlier listener `a` removes (by `unsubscribe`, an unsubscribe
closure — both `RegOp.remove` — or `unsubscribeAll`) is never invoked in that
cycle, provided nothing re-adds `b`; and when listeners do not mutate the
registry the cycle invokes exactly the registry as of invocation start, in
order — the stable-snapshot behaviour. -/
theorem c5_mid_notify_removal :
    (∀ (fuel : Nat) (eff : Nat → List RegOp) (front rest : List Nat) (a b : Nat),
        b ≠ a → (RegOp.remove b ∈ eff a ∨ RegOp.removeAll ∈ eff a) →
        (∀ i, RegOp.add b ∉ eff i) →
        b ∉ notifyRun fuel eff front (a :: rest)) ∧
      (∀ (fuel : Nat) (front pending : List Nat), pending.length ≤ fuel →
        notifyRun fuel (fun _ => []) front pending = pending) := by
  constructor
  · intro fuel eff front rest a b hba htrig hadd
    cases fuel with
    | zero => simp [notifyRun]
    | succ f =>
        simp only [notifyRun, List.mem_cons, not_or]
        refine ⟨hba, ?_⟩
        exact notifyRun_not_mem f eff _ _ b
          (applyOps_pending_removed (eff a) (front ++ [a], rest) b htrig (hadd a)) hadd
  · exact notifyRun_no_ops

/-- C5, witness: in the registry `[1, 2, 3]`, listener 1 removes listener 2
mid-cycle, and 2 is not invoked; a mutation-free cycle over `[4, 5, 6]` invokes
exactly `[4, 5, 6]`. -/
theorem c5_mid_notify_removal_witness :
    (2 : Nat) ∉ notifyRun 5 (fun i => if i = 1 then [RegOp.remove 2] else []) [] [1, 2, 3] ∧
      notifyRun 3 (fun _ => []) [] [4, 5, 6] = [4, 5, 6] :=
  ⟨c5_mid_notify_removal.1 5 (fun i => if i = 1 then [RegOp.remove 2] else []) [] [2, 3] 1 2
      (by decide) (Or.inl (by simp))
      (fun i => by by_cases h : i = 1 <;> simp [h]),
    c5_mid_notify_removal.2 3 [] [4, 5, 6] (by decide)⟩

/-- C6: if the caller-supplied updater throws, the exception propagates
unmodified to the caller of `update`, the store (hence `getState()`) is
unchanged, and no listener is invoked; the updater was invoked exactly once,
with the current state. -/
theorem c6_updater_throw_atomic (env : Env) (fresh : Nat) (st : Store)
    (i code e : Nat) (r : Bool) (h : env code st.state = .thrown e) :
    update env fresh st (.func i code) r = ⟨st, [], [(code, st.state)], some e⟩ :=
  update_func_thrown env fresh st i code r e h

/-- C6, witness: an updater that always throws exception 42 leaves the store
with state `1` and listener 3 untouched and uncalled. -/
theorem c6_updater_throw_atomic_witness :
    update (fun _ _ => .thrown 42) 0 ⟨.prim 1, .prim 1, [3]⟩ (.func 1 100) false =
      ⟨⟨.prim 1, .prim 1, [3]⟩, [], [(100, .prim 1)], some 42⟩ :=
  c6_updater_throw_atomic (fun _ _ => .thrown 42) 0 ⟨.prim 1, .prim 1, [3]⟩ 1 100 42 false rfl

/-- C7: after invoking the unsubscribe closure returned by
`subscribe(listener)` once, no later `update` on the resulting store ever
invokes that listener; invoking the closure again is a no-op (it does not
throw — it is a total function here — and changes nothing), and every other
listener's registration is unaffected. -/
theorem c7_unsubscribe_correct (st : Store) (l : Nat) :
    (∀ (env : Env) (fresh : Nat) (updArg : Val) (r : Bool),
        ∀ q ∈ (update env fresh (unsubscribe (subscribe st l) l) updArg r).calls,
          q.1 ≠ l) ∧
      unsubscribe (unsubscribe (subscribe st l) l) l = unsubscribe (subscribe st l) l ∧
      (∀ x, x ≠ l →
        (x ∈ (unsubscribe (unsubscribe (subscribe st l) l) l).listeners ↔
          x ∈ st.listeners)) := by
  have hnot : l ∉ (unsubscribe (subscribe st l) l).listeners := by
    simp [unsubscribe]
  have hidem : unsubscribe (unsubscribe (subscribe st l) l) l =
      unsubscribe (subscribe st l) l := by
    simp [unsubscribe, List.filter_filter]
  refine ⟨?_, hidem, ?_⟩
  · intro env fresh updArg r q hq hql
    have hmem := update_calls_mem env fresh (unsubscribe (subscribe st l) l) updArg r q hq
    rw [hql] at hmem
    exact hnot hmem
  · intro x hx
    rw [hidem]
    by_cases hmem : l ∈ st.listeners <;>
      simp [unsubscribe, subscribe, hmem, List.mem_filter, hx]

/-- C7, witness: with listener 3 registered, subscribing and twice
unsubscribing listener 5 leaves listener 3's registration intact. -/
theorem c7_unsubscribe_correct_witness :
    (3 : Nat) ≠ 5 ∧
      (3 ∈ (unsubscribe (unsubscribe (subscribe ⟨.prim 0, .prim 0, [3]⟩ 5) 5) 5).listeners ↔
        3 ∈ (⟨.prim 0, .prim 0, [3]⟩ : Store).listeners) :=
  ⟨by decide, (c7_unsubscribe_correct ⟨.prim 0, .prim 0, [3]⟩ 5).2.2 3 (by decide)⟩

/-- C8: after `unsubscribeAll()` the listener registry is empty, and a
subsequent `notify` (with or without an explicit value) invokes zero
listeners. -/
theorem c8_unsubscribeAll_empties (st : Store) :
    (unsubscribeAll st).listeners = [] ∧
      ∀ v, notify (unsubscribeAll st) v = (unsubscribeAll st, []) := by
  have hemp : (unsubscribeAll st).listeners = [] := by
    rw [List.eq_nil_iff_forall_not_mem]
    intro x hx
    simp only [unsubscribeAll] at hx
    have h := mem_foldl_filter st.listeners st.listeners x hx
    exact h.2 h.1
  exact ⟨hemp, fun v => by simp [notify, hemp]⟩

/-- C9: `notify(v)` with an explicit value invokes every registered listener
with `v`, in registration order, and returns the store unchanged (so
`getState()` and `getInit()` return the same references as before); `notify()`
with no argument hands every listener the current state. -/
theorem c9_notify_frame (st : Store) (v : Val) :
    notify st (some v) = (st, st.listeners.map (fun l => (l, v))) ∧
      notify st none = (st, st.listeners.map (fun l => (l, st.state))) :=
  ⟨rfl, rfl⟩

/-- C10: any function value passed as `update`'s first argument is classified
as an updater and invoked exactly once with the current state (never itself
assigned verbatim); consequently, for a store whose initial value is a
function, `resetState()` invokes that function as an updater and stores its
return value instead of restoring the function itself. -/
theorem c10_function_arg_is_updater :
    (∀ (env : Env) (fresh : Nat) (st : Store) (i code : Nat) (r : Bool),
        (update env fresh st (.func i code) r).fnCalls = [(code, st.state)]) ∧
      (∀ (env : Env) (fresh : Nat) (st : Store) (i code : Nat) (v : Val),
        st.init = .func i code → env code st.state = .ok v →
        (resetState env fresh st).store.state = v) := by
  constructor
  · intro env fresh st i code r
    cases henv : env code st.state with
    | thrown e => rw [update_func_thrown env fresh st i code r e henv]
    | ok v => rw [update_func env fresh st i code r v henv, updateCore_fc]
  · intro env fresh st i code v hinit henv
    simp only [resetState]
    rw [hinit, update_func env fresh st i code true v henv, updateCore_state,
      nextVal_replace]

/-- C10, witness: a store whose initial value is the function (id 0, body 100)
returning `9`; `resetState` stores `9`, not the function. -/
theorem c10_function_arg_is_updater_witness :
    (⟨.prim 7, .func 0 100, []⟩ : Store).init = .func 0 100 ∧
      (resetState (fun _ _ => .ok (.prim 9)) 4 ⟨.prim 7, .func 0 100, []⟩).store.state =
        .prim 9 :=
  ⟨rfl, c10_function_arg_is_updater.2 (fun _ _ => .ok (.prim 9)) 4
      ⟨.prim 7, .func 0 100, []⟩ 0 100 (.prim 9) rfl rfl⟩

end FlowState
